import Mathlib

/-!
Verification of the India internal-migration map server (`app.py`).

The development shallowly embeds the two stateful/algorithmic cores of the
application:

* the zoom-adaptive boundary cache (`get_boundaries` / `reset_cache`) with its
  "never re-simplify down" ratchet policy, modelled as explicit state passing
  over a `CacheState`; the ten precomputed simplification levels are abstracted
  as a function `levels : Nat → α` (the payload served for a level index);
* the flow aggregation/query engine (`get_flows`, `get_stats`,
  `get_state_migration`, `get_net_migration`) over the aggregated flow table,
  modelled as pure functions on a `List Flow` with exact rational volumes.

Python `int(...)` truncation is modelled by `pyInt`, Python string comparison
(code-point lexicographic, used by `tuple(sorted([...]))`) by `strLe`.
-/

/-! ### Python string order (code-point lexicographic) -/

/-- Lexicographic comparison of character lists by Unicode code point,
mirroring Python string comparison. -/
def strListLe : List Char → List Char → Bool
  | [], _ => true
  | _ :: _, [] => false
  | c :: cs, d :: ds =>
    if c < d then true
    else if d < c then false
    else strListLe cs ds

/-- Python's `s <= t` on strings. -/
def strLe (s t : String) : Bool := strListLe s.data t.data

theorem strListLe_total (a b : List Char) : strListLe a b = true ∨ strListLe b a = true := by
  induction a generalizing b with
  | nil => left; rfl
  | cons c cs ih =>
    cases b with
    | nil => right; rfl
    | cons d ds =>
      by_cases h1 : c < d
      · left; simp [strListLe, h1]
      · by_cases h2 : d < c
        · right; simp [strListLe, h2]
        · rcases ih ds with h | h
          · left; simp [strListLe, h1, h2, h]
          · right; simp [strListLe, h1, h2, h]

theorem strListLe_antisymm {a b : List Char} (h1 : strListLe a b = true)
    (h2 : strListLe b a = true) : a = b := by
  induction a generalizing b with
  | nil =>
    cases b with
    | nil => rfl
    | cons d ds => simp [strListLe] at h2
  | cons c cs ih =>
    cases b with
    | nil => simp [strListLe] at h1
    | cons d ds =>
      by_cases hcd : c < d
      · simp [strListLe, hcd, lt_asymm hcd] at h2
      · by_cases hdc : d < c
        · simp [strListLe, hcd, hdc] at h1
        · have hce : c = d := le_antisymm (le_of_not_lt hdc) (le_of_not_lt hcd)
          simp [strListLe, hcd, hdc] at h1 h2
          rw [hce, ih h1 h2]

theorem strLe_total (s t : String) : strLe s t = true ∨ strLe t s = true :=
  strListLe_total s.data t.data

theorem strLe_antisymm {s t : String} (h1 : strLe s t = true) (h2 : strLe t s = true) :
    s = t := by
  cases s with
  | mk a =>
    cases t with
    | mk b => exact congrArg String.mk (strListLe_antisymm h1 h2)

/-! ### Boundary cache (`app.py` lines 82-120, 259-265) -/

/-- The process-wide mutable cache state behind `/api/boundaries`:
`most_detailed_level_loaded` (initially `-1`) and `cached_most_detailed_data`
(initially `None`). -/
structure CacheState (α : Type) where
  most_detailed_level_loaded : Int
  cached_most_detailed_data : Option α
deriving DecidableEq

/-- The startup state of the cache: no level served yet, no payload. -/
def initialCache {α : Type} : CacheState α :=
  { most_detailed_level_loaded := -1, cached_most_detailed_data := none }

/-- `min(9, max(0, zoom - 1))`: maps a zoom value to a simplification level. -/
def clampLevel (zoom : Int) : Int := min 9 (max 0 (zoom - 1))

/-- The not-cached branch of `get_boundaries`: serve the precomputed set for
`requested_level`, updating the cache when this level is more detailed than
the one currently cached. -/
def loadLevel {α : Type} (levels : Nat → α) (requested_level : Int) (s : CacheState α) :
    α × CacheState α :=
  if s.most_detailed_level_loaded < requested_level then
    (levels requested_level.toNat,
      { most_detailed_level_loaded := requested_level,
        cached_most_detailed_data := some (levels requested_level.toNat) })
  else (levels requested_level.toNat, s)

/-- `get_boundaries`: one `/api/boundaries?zoom=...` request, returning the
served payload together with the updated cache state. -/
def get_boundaries {α : Type} (levels : Nat → α) (zoom : Int) (s : CacheState α) :
    α × CacheState α :=
  let requested_level := clampLevel zoom
  match s.cached_most_detailed_data with
  | some d =>
      if requested_level ≤ s.most_detailed_level_loaded then (d, s)
      else loadLevel levels requested_level s
  | none => loadLevel levels requested_level s

/-- `reset_cache`: `/api/reset_cache` sets the level back to `-1` and drops
the cached payload. -/
def reset_cache {α : Type} (_ : CacheState α) : CacheState α := initialCache

/-- Run a sequence of `/api/boundaries` requests, threading the cache state. -/
def runFetches {α : Type} (levels : Nat → α) (zooms : List Int) (s : CacheState α) :
    CacheState α :=
  zooms.foldl (fun t z => (get_boundaries levels z t).2) s

/-- Concrete level table where the payload of level `n` is `n` itself; used to
observe which resolution the cache serves. -/
def idLevels : Nat → Nat := fun n => n

theorem clampLevel_nonneg (zoom : Int) : 0 ≤ clampLevel zoom :=
  le_min (by norm_num) (le_max_left 0 (zoom - 1))

/-- A fetch never decreases `most_detailed_level_loaded`. -/
theorem fetch_mdl_le {α : Type} (levels : Nat → α) (zoom : Int) (s : CacheState α) :
    s.most_detailed_level_loaded ≤
      (get_boundaries levels zoom s).2.most_detailed_level_loaded := by
  unfold get_boundaries loadLevel
  cases s.cached_most_detailed_data with
  | some d =>
    simp only
    split
    · exact le_refl _
    · split
      · rename_i hlt
        exact le_of_lt hlt
      · exact le_refl _
  | none =>
    simp only
    split
    · rename_i hlt
      exact le_of_lt hlt
    · exact le_refl _

theorem runFetches_mdl_le {α : Type} (levels : Nat → α) (zs : List Int) (s : CacheState α) :
    s.most_detailed_level_loaded ≤
      (runFetches levels zs s).most_detailed_level_loaded := by
  induction zs generalizing s with
  | nil => exact le_refl _
  | cons z zs ih =>
    exact le_trans (fetch_mdl_le levels z s) (ih (get_boundaries levels z s).2)

theorem runFetches_append {α : Type} (levels : Nat → α) (zs ws : List Int) (s : CacheState α) :
    runFetches levels (zs ++ ws) s = runFetches levels ws (runFetches levels zs s) := by
  simp [runFetches, List.foldl_append]

/-- Cache coherence: whenever a payload is cached it is exactly the payload of
the recorded most-detailed level, and that level is a real one. -/
def cacheWellFormed {α : Type} (levels : Nat → α) (s : CacheState α) : Prop :=
  ∀ d, s.cached_most_detailed_data = some d →
    0 ≤ s.most_detailed_level_loaded ∧ d = levels s.most_detailed_level_loaded.toNat

theorem fetch_preserves_wf {α : Type} (levels : Nat → α) (zoom : Int) (s : CacheState α)
    (h : cacheWellFormed levels s) :
    cacheWellFormed levels (get_boundaries levels zoom s).2 := by
  unfold get_boundaries loadLevel
  cases hc : s.cached_most_detailed_data with
  | some d =>
    simp only
    split
    · simpa [cacheWellFormed] using h
    · split
      · intro e he
        simp only [Option.some.injEq] at he
        exact ⟨clampLevel_nonneg zoom, by rw [← he]⟩
      · simpa [cacheWellFormed] using h
  | none =>
    simp only
    split
    · intro e he
      simp only [Option.some.injEq] at he
      exact ⟨clampLevel_nonneg zoom, by rw [← he]⟩
    · intro e he
      rw [hc] at he
      exact absurd he (by simp)

theorem runFetches_wf {α : Type} (levels : Nat → α) (zs : List Int) (s : CacheState α)
    (h : cacheWellFormed levels s) :
    cacheWellFormed levels (runFetches levels zs s) := by
  induction zs generalizing s with
  | nil => exact h
  | cons z zs ih =>
    exact ih (get_boundaries levels z s).2 (fetch_preserves_wf levels z s h)

theorem initialCache_wf {α : Type} (levels : Nat → α) :
    cacheWellFormed levels (initialCache (α := α)) := by
  intro d hd
  simp [initialCache] at hd

/-- On a well-formed cache, a fetch serves the payload of some level at least
as detailed as the clamped request. -/
theorem fetch_payload_level {α : Type} (levels : Nat → α) (zoom : Int) (s : CacheState α)
    (h : cacheWellFormed levels s) :
    ∃ m : Int, clampLevel zoom ≤ m ∧ (get_boundaries levels zoom s).1 = levels m.toNat := by
  unfold get_boundaries loadLevel
  cases hc : s.cached_most_detailed_data with
  | some d =>
    simp only
    split
    · rename_i hle
      exact ⟨s.most_detailed_level_loaded, hle, (h d hc).2⟩
    · split
      · exact ⟨clampLevel zoom, le_refl _, rfl⟩
      · exact ⟨clampLevel zoom, le_refl _, rfl⟩
  | none =>
    simp only
    split
    · exact ⟨clampLevel zoom, le_refl _, rfl⟩
    · exact ⟨clampLevel zoom, le_refl _, rfl⟩

/-- A fetch on the fresh cache serves exactly the clamped level and caches it. -/
theorem fetch_fresh {α : Type} (levels : Nat → α) (zoom : Int) :
    get_boundaries levels zoom (initialCache (α := α)) =
      (levels (clampLevel zoom).toNat,
        { most_detailed_level_loaded := clampLevel zoom,
          cached_most_detailed_data := some (levels (clampLevel zoom).toNat) }) := by
  have h : (-1 : Int) < clampLevel zoom := by
    have := clampLevel_nonneg zoom
    omega
  simp [get_boundaries, initialCache, loadLevel, h]

/-- C3: after any sequence of fetches from the fresh cache,
`most_detailed_level_loaded` is monotonically non-decreasing, and any further
fetch serves the payload of a level at least as detailed as the clamped
request. -/
theorem cache_monotone {α : Type} (levels : Nat → α) (zs ws : List Int) (zoom : Int) :
    (runFetches levels zs initialCache).most_detailed_level_loaded ≤
      (runFetches levels (zs ++ ws) initialCache).most_detailed_level_loaded ∧
    ∃ m : Int, clampLevel zoom ≤ m ∧
      (get_boundaries levels zoom (runFetches levels zs initialCache)).1 = levels m.toNat := by
  constructor
  · rw [runFetches_append]
    exact runFetches_mdl_le levels ws _
  · exact fetch_payload_level levels zoom _
      (runFetches_wf levels zs initialCache (initialCache_wf levels))

/-- C6: `reset_cache` restores the initial state (`-1`, no payload), and the
next fetch after a reset serves exactly the payload of level
`clamp(zoom - 1, 0, 9)` — no stale upgraded payload survives. -/
theorem reset_then_fetch {α : Type} (levels : Nat → α) (s : CacheState α) (zoom : Int) :
    (reset_cache s).most_detailed_level_loaded = -1 ∧
    (reset_cache s).cached_most_detailed_data = none ∧
    (get_boundaries levels zoom (reset_cache s)).1 = levels (clampLevel zoom).toNat := by
  refine ⟨rfl, rfl, ?_⟩
  show (get_boundaries levels zoom initialCache).1 = levels (clampLevel zoom).toNat
  rw [fetch_fresh]

/-- C1 (counterexample to the claim as stated): for the zoom pair
`z1 = 10 < z2 = 11` both zooms clamp to level 9, so the payload returned by
`fetch 11; fetch 10` on a fresh cache IS the payload at z1's nominal
resolution, contradicting the claim's "not the payload at z1's nominal
resolution". -/
theorem ratchet_claim_counterexample :
    (10 : Int) < 11 ∧
    (get_boundaries idLevels 10 (get_boundaries idLevels 11 initialCache).2).1 =
      idLevels (clampLevel 10).toNat := by
  constructor
  · decide
  · decide

/-- C1 (amended): for zoom values whose clamped levels are strictly ordered
(`clamp(z1-1,0,9) < clamp(z2-1,0,9)`, which holds for all `1 ≤ z1 < z2 ≤ 10`),
`fetch z2; fetch z1` on a fresh cache returns the payload at z2's clamped
resolution, and — whenever distinct levels carry distinct payloads — not the
payload at z1's nominal resolution. -/
theorem ratchet_upgrade {α : Type} (levels : Nat → α) (z1 z2 : Int)
    (h : clampLevel z1 < clampLevel z2) :
    (get_boundaries levels z1 (get_boundaries levels z2 initialCache).2).1 =
      levels (clampLevel z2).toNat ∧
    (Function.Injective levels →
      (get_boundaries levels z1 (get_boundaries levels z2 initialCache).2).1 ≠
        levels (clampLevel z1).toNat) := by
  have hs : (get_boundaries levels z2 initialCache).2 =
      { most_detailed_level_loaded := clampLevel z2,
        cached_most_detailed_data := some (levels (clampLevel z2).toNat) } := by
    rw [fetch_fresh]
  have hpay : (get_boundaries levels z1 (get_boundaries levels z2 initialCache).2).1 =
      levels (clampLevel z2).toNat := by
    rw [hs]
    simp [get_boundaries, le_of_lt h]
  refine ⟨hpay, ?_⟩
  intro hinj heq
  rw [hpay] at heq
  have htn : (clampLevel z2).toNat = (clampLevel z1).toNat := hinj heq
  have h1 := clampLevel_nonneg z1
  have h2 := clampLevel_nonneg z2
  omega

/-- Witness for C1 (amended) at the concrete zooms `z1 = 3`, `z2 = 7`. -/
theorem ratchet_upgrade_witness :
    clampLevel 3 < clampLevel 7 ∧
    ((get_boundaries idLevels 3 (get_boundaries idLevels 7 initialCache).2).1 =
        idLevels (clampLevel 7).toNat ∧
      (Function.Injective idLevels →
        (get_boundaries idLevels 3 (get_boundaries idLevels 7 initialCache).2).1 ≠
          idLevels (clampLevel 3).toNat)) :=
  ⟨by decide, ratchet_upgrade idLevels 3 7 (by decide)⟩


/-! ### Flow aggregation and per-state totals (`app.py` lines 64-71, 157-208) -/

/-- One row of the aggregated flow table `flows`: an ordered state pair with
its summed migration volume (`PrdMIG`). Volumes are modelled exactly as
rationals. -/
structure FlowRow where
  origin_state : String
  dest_state : String
  PrdMIG : ℚ
deriving DecidableEq, Repr

/-- Python's `int(x)` on a number: truncation toward zero. -/
def pyInt (x : ℚ) : Int := x.num.tdiv (x.den : Int)

/-- A pandas-like Series: an association list from state name to value,
keyed by a list of distinct keys with a value function. -/
def keyedSeries (keys : List String) (v : String → ℚ) : List (String × ℚ) :=
  keys.map (fun k => (k, v k))

/-- `series.get(s, d)`: lookup with a default. -/
def seriesGet (l : List (String × ℚ)) (s : String) (d : ℚ) : ℚ :=
  (l.lookup s).getD d

/-- `flows.groupby(key)['PrdMIG'].sum()`: one entry per distinct key value,
holding the sum of `PrdMIG` over the rows with that key. -/
def groupSum (key : FlowRow → String) (fl : List FlowRow) : List (String × ℚ) :=
  keyedSeries ((fl.map key).dedup)
    (fun s => ((fl.filter (fun f => key f = s)).map FlowRow.PrdMIG).sum)

/-- `in_mig = flows.groupby('dest_state')['PrdMIG'].sum()`. -/
def in_mig (fl : List FlowRow) : List (String × ℚ) := groupSum FlowRow.dest_state fl

/-- `out_mig = flows.groupby('origin_state')['PrdMIG'].sum()`. -/
def out_mig (fl : List FlowRow) : List (String × ℚ) := groupSum FlowRow.origin_state fl

/-- `net_mig = in_mig.subtract(out_mig, fill_value=0)`: indexed by the union
of the two key sets, with missing entries read as zero. -/
def net_mig (fl : List FlowRow) : List (String × ℚ) :=
  keyedSeries (((in_mig fl).map Prod.fst) ++ ((out_mig fl).map Prod.fst)).dedup
    (fun s => seriesGet (in_mig fl) s 0 - seriesGet (out_mig fl) s 0)

theorem keyedSeries_lookup_mem (keys : List String) (v : String → ℚ) (s : String)
    (hs : s ∈ keys) : (keyedSeries keys v).lookup s = some (v s) := by
  induction keys with
  | nil => cases hs
  | cons k ks ih =>
    by_cases h : s = k
    · subst h
      simp [keyedSeries, List.lookup]
    · have hs2 : s ∈ ks := by
        rcases List.mem_cons.mp hs with h1 | h1
        · exact absurd h1 h
        · exact h1
      have hbeq : (s == k) = false := beq_eq_false_iff_ne.mpr h
      simpa [keyedSeries, List.lookup, hbeq] using ih hs2

theorem keyedSeries_lookup_not_mem (keys : List String) (v : String → ℚ) (s : String)
    (hs : s ∉ keys) : (keyedSeries keys v).lookup s = none := by
  induction keys with
  | nil => rfl
  | cons k ks ih =>
    have h : s ≠ k := fun h => hs (h ▸ List.mem_cons_self k ks)
    have hbeq : (s == k) = false := beq_eq_false_iff_ne.mpr h
    simpa [keyedSeries, List.lookup, hbeq] using
      ih (fun hmem => hs (List.mem_cons_of_mem k hmem))

theorem keyedSeries_keys (keys : List String) (v : String → ℚ) :
    (keyedSeries keys v).map Prod.fst = keys := by
  induction keys with
  | nil => rfl
  | cons k ks ih => simpa [keyedSeries] using ih

/-- C8: for every state name, the `net_mig` series value equals the `in_mig`
value minus the `out_mig` value, reading a state missing from either side as
zero. -/
theorem net_eq_in_sub_out (fl : List FlowRow) (s : String) :
    seriesGet (net_mig fl) s 0 =
      seriesGet (in_mig fl) s 0 - seriesGet (out_mig fl) s 0 := by
  by_cases hs : s ∈ (((in_mig fl).map Prod.fst) ++ ((out_mig fl).map Prod.fst)).dedup
  · rw [seriesGet, net_mig, keyedSeries_lookup_mem _ _ s hs]
    rfl
  · have hs1 : s ∉ (fl.map FlowRow.dest_state).dedup := by
      intro h
      refine hs (List.mem_dedup.mpr (List.mem_append_left _ ?_))
      rw [in_mig, groupSum, keyedSeries_keys]
      exact h
    have hs2 : s ∉ (fl.map FlowRow.origin_state).dedup := by
      intro h
      refine hs (List.mem_dedup.mpr (List.mem_append_right _ ?_))
      rw [out_mig, groupSum, keyedSeries_keys]
      exact h
    rw [seriesGet, net_mig, keyedSeries_lookup_not_mem _ _ s hs,
      seriesGet, in_mig, groupSum, keyedSeries_lookup_not_mem _ _ s hs1,
      seriesGet, out_mig, groupSum, keyedSeries_lookup_not_mem _ _ s hs2]
    simp

/-! ### Global statistics (`app.py` lines 157-171) -/

/-- The `/api/stats` response object. -/
structure Stats where
  total_migration : Int
  num_states : Nat
  max_net_migration : Int
  min_net_migration : Int
  num_flows : Nat
deriving DecidableEq, Repr

/-- `get_stats`: total volume (truncated to int), number of states carrying a
net value, extreme net values (0 when there are no states), and the number of
aggregated flow rows. -/
def get_stats (fl : List FlowRow) : Stats :=
  { total_migration := pyInt ((fl.map FlowRow.PrdMIG).sum)
    num_states := (net_mig fl).length
    max_net_migration :=
      match (net_mig fl).map Prod.snd with
      | [] => 0
      | v :: vs => pyInt (vs.foldl max v)
    min_net_migration :=
      match (net_mig fl).map Prod.snd with
      | [] => 0
      | v :: vs => pyInt (vs.foldl min v)
    num_flows := fl.length }

/-! ### Per-state detail (`app.py` lines 173-208) -/

/-- The `/api/state_migration/<state_name>` response object. -/
structure StateDetail where
  state : String
  total_out : ℚ
  total_in : ℚ
  net_mig : ℚ
  out_flows : List (String × ℚ)
  in_flows : List (String × ℚ)
deriving DecidableEq, Repr

/-- `get_state_migration`: totals and per-counterparty flow lists for one
state, recomputed from the aggregated table by local sums. -/
def get_state_migration (fl : List FlowRow) (state_name : String) : StateDetail :=
  let out_flows := fl.filter (fun f => f.origin_state = state_name)
  let in_flows := fl.filter (fun f => f.dest_state = state_name)
  let total_out := if 0 < out_flows.length then ((out_flows.map FlowRow.PrdMIG).sum) else 0
  let total_in := if 0 < in_flows.length then ((in_flows.map FlowRow.PrdMIG).sum) else 0
  { state := state_name
    total_out := total_out
    total_in := total_in
    net_mig := total_in - total_out
    out_flows := out_flows.map (fun f => (f.dest_state, f.PrdMIG))
    in_flows := in_flows.map (fun f => (f.origin_state, f.PrdMIG)) }

/-- C9: querying a state name that appears nowhere in the aggregated flow
table succeeds with zero totals and empty flow lists. -/
theorem unknown_state_empty (fl : List FlowRow) (s : String)
    (h : ∀ f ∈ fl, f.origin_state ≠ s ∧ f.dest_state ≠ s) :
    get_state_migration fl s =
      { state := s, total_out := 0, total_in := 0, net_mig := 0,
        out_flows := [], in_flows := [] } := by
  have ho : fl.filter (fun f => f.origin_state = s) = [] :=
    List.filter_eq_nil_iff.mpr (fun f hf => by simpa using (h f hf).1)
  have hi : fl.filter (fun f => f.dest_state = s) = [] :=
    List.filter_eq_nil_iff.mpr (fun f hf => by simpa using (h f hf).2)
  simp [get_state_migration, ho, hi]

/-- Witness for C9: the state `"Z"` is absent from a concrete two-row table. -/
theorem unknown_state_empty_witness :
    get_state_migration [⟨"A", "B", 10⟩, ⟨"B", "A", 4⟩] "Z" =
      { state := "Z", total_out := 0, total_in := 0, net_mig := 0,
        out_flows := [], in_flows := [] } :=
  unknown_state_empty [⟨"A", "B", 10⟩, ⟨"B", "A", 4⟩] "Z" (by decide)

/-! ### Ranked flows (`app.py` lines 122-155) -/

/-- One element of the `/api/flows` response: a flow enriched with centroid
coordinates and the precomputed per-state totals (in-total from the
destination state, out- and net-totals from the origin state). -/
structure FlowOut where
  origin_state : String
  dest_state : String
  origin_coords : ℚ × ℚ
  dest_coords : ℚ × ℚ
  flow_value : ℚ
  in_mig : Int
  out_mig : Int
  net_mig : Int
deriving DecidableEq, Repr

/-- Build the response record for one aggregated flow, or skip it (`none`)
when either state is missing from the centroid table. -/
def flowRecord (fl : List FlowRow) (cents : List (String × (ℚ × ℚ))) (f : FlowRow) :
    Option FlowOut :=
  match cents.lookup f.origin_state, cents.lookup f.dest_state with
  | some o, some d =>
      some { origin_state := f.origin_state
             dest_state := f.dest_state
             origin_coords := o
             dest_coords := d
             flow_value := f.PrdMIG
             in_mig := pyInt (seriesGet (in_mig fl) f.dest_state 0)
             out_mig := pyInt (seriesGet (out_mig fl) f.origin_state 0)
             net_mig := pyInt (seriesGet (net_mig fl) f.origin_state 0) }
  | _, _ => none

/-- The unsorted `flow_data` list: flows meeting the threshold, skipping
those with a missing centroid. -/
def flowRows (fl : List FlowRow) (cents : List (String × (ℚ × ℚ))) (min_flow : ℚ) :
    List FlowOut :=
  (fl.filter (fun f => min_flow ≤ f.PrdMIG)).filterMap (flowRecord fl cents)

/-- `sorted(..., key=lambda x: x['flow_value'], reverse=True)`: descending
order on `flow_value`. -/
def flowDescOrder (a b : FlowOut) : Prop := b.flow_value ≤ a.flow_value

instance : DecidableRel flowDescOrder :=
  fun a b => inferInstanceAs (Decidable (b.flow_value ≤ a.flow_value))

instance : IsTotal FlowOut flowDescOrder :=
  ⟨fun a b => le_total b.flow_value a.flow_value⟩

instance : IsTrans FlowOut flowDescOrder :=
  ⟨fun _ _ _ hab hbc => le_trans hbc hab⟩

/-- The ranked flow list before the 200-record truncation. -/
def rankedFlowsUnlimited (fl : List FlowRow) (cents : List (String × (ℚ × ℚ)))
    (min_flow : ℚ) : List FlowOut :=
  List.insertionSort flowDescOrder (flowRows fl cents min_flow)

/-- `get_flows`: the `/api/flows` response. The `flow_type` parameter is read
from the query string but never used by the endpoint body. -/
def get_flows (fl : List FlowRow) (cents : List (String × (ℚ × ℚ))) (min_flow : ℚ)
    (flow_type : String) : List FlowOut :=
  (rankedFlowsUnlimited fl cents min_flow).take 200

/-- A concrete ranked-flow record used to witness the `get_flows`
postcondition. -/
def exRanked : FlowOut :=
  { origin_state := "A", dest_state := "B", origin_coords := (0, 0),
    dest_coords := (1, 1), flow_value := 5, in_mig := 5, out_mig := 5,
    net_mig := -5 }

theorem flowRecord_eq_some_iff (fl : List FlowRow) (cents : List (String × (ℚ × ℚ)))
    (f : FlowRow) (r : FlowOut) :
    flowRecord fl cents f = some r ↔
      ∃ oc dc, cents.lookup f.origin_state = some oc ∧
        cents.lookup f.dest_state = some dc ∧
        r = { origin_state := f.origin_state
              dest_state := f.dest_state
              origin_coords := oc
              dest_coords := dc
              flow_value := f.PrdMIG
              in_mig := pyInt (seriesGet (in_mig fl) f.dest_state 0)
              out_mig := pyInt (seriesGet (out_mig fl) f.origin_state 0)
              net_mig := pyInt (seriesGet (net_mig fl) f.origin_state 0) } := by
  unfold flowRecord
  cases ho : cents.lookup f.origin_state with
  | none => simp [ho]
  | some o =>
    cases hd : cents.lookup f.dest_state with
    | none => simp [hd]
    | some d => simp [ho, hd, eq_comm]

/-- C10: the unused `type` query parameter never influences the `/api/flows`
response. -/
theorem flows_type_noninterference (fl : List FlowRow) (cents : List (String × (ℚ × ℚ)))
    (min_flow : ℚ) (t1 t2 : String) :
    get_flows fl cents min_flow t1 = get_flows fl cents min_flow t2 := rfl

/-- C5: the `/api/flows` response is the descending-by-volume sort of exactly
the flows meeting the threshold whose two states both have centroids,
truncated to 200 records, each enriched with the destination state's in-total
and the origin state's out- and net-totals. -/
theorem get_flows_post (fl : List FlowRow) (cents : List (String × (ℚ × ℚ)))
    (min_flow : ℚ) (t : String) :
    (get_flows fl cents min_flow t).length ≤ 200 ∧
    get_flows fl cents min_flow t = (rankedFlowsUnlimited fl cents min_flow).take 200 ∧
    List.Sorted flowDescOrder (get_flows fl cents min_flow t) ∧
    (∀ r : FlowOut, r ∈ rankedFlowsUnlimited fl cents min_flow ↔
      ∃ f ∈ fl, min_flow ≤ f.PrdMIG ∧
        ∃ oc dc, cents.lookup f.origin_state = some oc ∧
          cents.lookup f.dest_state = some dc ∧
          r = { origin_state := f.origin_state
                dest_state := f.dest_state
                origin_coords := oc
                dest_coords := dc
                flow_value := f.PrdMIG
                in_mig := pyInt (seriesGet (in_mig fl) f.dest_state 0)
                out_mig := pyInt (seriesGet (out_mig fl) f.origin_state 0)
                net_mig := pyInt (seriesGet (net_mig fl) f.origin_state 0) }) ∧
    (∀ r ∈ get_flows fl cents min_flow t,
      r.in_mig = pyInt (seriesGet (in_mig fl) r.dest_state 0) ∧
      r.out_mig = pyInt (seriesGet (out_mig fl) r.origin_state 0) ∧
      r.net_mig = pyInt (seriesGet (net_mig fl) r.origin_state 0)) := by
  have hmem : ∀ r : FlowOut, r ∈ rankedFlowsUnlimited fl cents min_flow ↔
      ∃ f ∈ fl, min_flow ≤ f.PrdMIG ∧
        ∃ oc dc, cents.lookup f.origin_state = some oc ∧
          cents.lookup f.dest_state = some dc ∧
          r = { origin_state := f.origin_state
                dest_state := f.dest_state
                origin_coords := oc
                dest_coords := dc
                flow_value := f.PrdMIG
                in_mig := pyInt (seriesGet (in_mig fl) f.dest_state 0)
                out_mig := pyInt (seriesGet (out_mig fl) f.origin_state 0)
                net_mig := pyInt (seriesGet (net_mig fl) f.origin_state 0) } := by
    intro r
    rw [rankedFlowsUnlimited, (List.perm_insertionSort flowDescOrder _).mem_iff,
      flowRows, List.mem_filterMap]
    constructor
    · rintro ⟨f, hf, hrec⟩
      rcases List.mem_filter.mp hf with ⟨hfl, hcond⟩
      exact ⟨f, hfl, by simpa using hcond, (flowRecord_eq_some_iff fl cents f r).mp hrec⟩
    · rintro ⟨f, hfl, hcond, hrest⟩
      exact ⟨f, List.mem_filter.mpr ⟨hfl, by simpa using hcond⟩,
        (flowRecord_eq_some_iff fl cents f r).mpr hrest⟩
  refine ⟨?_, rfl, ?_, hmem, ?_⟩
  · rw [get_flows, List.length_take]
    exact min_le_left _ _
  · exact List.Pairwise.sublist (List.take_sublist 200 _)
      (List.sorted_insertionSort flowDescOrder _)
  · intro r hr
    have hr2 : r ∈ rankedFlowsUnlimited fl cents min_flow :=
      (List.take_sublist 200 _).mem hr
    obtain ⟨f, _, _, oc, dc, _, _, hrEq⟩ := (hmem r).mp hr2
    subst hrEq
    exact ⟨rfl, rfl, rfl⟩

/-- Witness for C5: the single qualifying flow of a one-row table is returned
with the documented enrichment. -/
theorem get_flows_post_witness :
    exRanked.in_mig =
      pyInt (seriesGet (in_mig [⟨"A", "B", 5⟩]) exRanked.dest_state 0) ∧
    exRanked.out_mig =
      pyInt (seriesGet (out_mig [⟨"A", "B", 5⟩]) exRanked.origin_state 0) ∧
    exRanked.net_mig =
      pyInt (seriesGet (net_mig [⟨"A", "B", 5⟩]) exRanked.origin_state 0) :=
  (get_flows_post [⟨"A", "B", 5⟩] [("A", (0, 0)), ("B", (1, 1))] 0 "all").2.2.2.2
    exRanked (by
      have h1 : seriesGet (in_mig [⟨"A", "B", 5⟩]) "B" 0 = 5 := by
        simp [in_mig, groupSum, keyedSeries, seriesGet]
      have h2 : seriesGet (out_mig [⟨"A", "B", 5⟩]) "A" 0 = 5 := by
        simp [out_mig, groupSum, keyedSeries, seriesGet]
      have h3 : seriesGet (net_mig [⟨"A", "B", 5⟩]) "A" 0 = -5 := by
        simp [net_mig, in_mig, out_mig, groupSum, keyedSeries, seriesGet, List.lookup]
      have hp1 : pyInt 5 = 5 := by decide
      have hp2 : pyInt (-5) = -5 := by decide
      simp [get_flows, rankedFlowsUnlimited, flowRows, flowRecord, List.lookup,
        h1, h2, h3, hp1, hp2, exRanked])

theorem pyInt_intCast (n : ℤ) : pyInt ((n : ℤ) : ℚ) = n := by
  rw [pyInt, Rat.num_intCast, Rat.den_intCast]
  rw [Nat.cast_one]
  exact Int.tdiv_one n

theorem flowRows_values (fl0 fl : List FlowRow) (cents : List (String × (ℚ × ℚ)))
    (hc : ∀ f ∈ fl, (cents.lookup f.origin_state).isSome ∧
      (cents.lookup f.dest_state).isSome) :
    (fl.filterMap (flowRecord fl0 cents)).map FlowOut.flow_value =
      fl.map FlowRow.PrdMIG := by
  induction fl with
  | nil => rfl
  | cons f fs ih =>
    obtain ⟨h1, h2⟩ := hc f (List.mem_cons_self f fs)
    obtain ⟨o, ho⟩ := Option.isSome_iff_exists.mp h1
    obtain ⟨d, hd⟩ := Option.isSome_iff_exists.mp h2
    rw [List.filterMap_cons]
    simp only [flowRecord, ho, hd]
    rw [List.map_cons, List.map_cons,
      ih (fun g hg => hc g (List.mem_cons_of_mem f hg))]

/-- C4 (amended): when every state referenced by a flow has a centroid, all
volumes are nonnegative, and the grand total is an integer, the
`total_migration` statistic equals the sum of `flow_value` over the
unfiltered, untruncated ranked flow list. -/
theorem stats_total_eq_ranked_sum (fl : List FlowRow) (cents : List (String × (ℚ × ℚ)))
    (hc : ∀ f ∈ fl, (cents.lookup f.origin_state).isSome ∧
      (cents.lookup f.dest_state).isSome)
    (hpos : ∀ f ∈ fl, 0 ≤ f.PrdMIG)
    (hint : ∃ n : ℤ, (fl.map FlowRow.PrdMIG).sum = (n : ℚ)) :
    (((get_stats fl).total_migration : ℤ) : ℚ) =
      ((rankedFlowsUnlimited fl cents 0).map FlowOut.flow_value).sum := by
  have hperm : ((rankedFlowsUnlimited fl cents 0).map FlowOut.flow_value).sum
      = ((flowRows fl cents 0).map FlowOut.flow_value).sum :=
    ((List.perm_insertionSort flowDescOrder _).map FlowOut.flow_value).sum_eq
  have hfilter : fl.filter (fun f => (0 : ℚ) ≤ f.PrdMIG) = fl :=
    List.filter_eq_self.mpr (fun f hf => by simpa using hpos f hf)
  have hrows : (flowRows fl cents 0).map FlowOut.flow_value = fl.map FlowRow.PrdMIG := by
    rw [flowRows, hfilter, flowRows_values fl fl cents hc]
  obtain ⟨n, hn⟩ := hint
  rw [hperm, hrows, hn]
  show ((pyInt ((fl.map FlowRow.PrdMIG).sum) : ℤ) : ℚ) = ((n : ℤ) : ℚ)
  rw [hn, pyInt_intCast]

/-- Witness for C4 (amended) on a one-row table with both centroids present. -/
theorem stats_total_eq_ranked_sum_witness :
    (((get_stats [⟨"A", "B", 5⟩]).total_migration : ℤ) : ℚ) =
      ((rankedFlowsUnlimited [⟨"A", "B", 5⟩] [("A", (0, 0)), ("B", (1, 1))] 0).map
          FlowOut.flow_value).sum :=
  stats_total_eq_ranked_sum [⟨"A", "B", 5⟩] [("A", (0, 0)), ("B", (1, 1))]
    (by decide) (by decide) ⟨5, by norm_num⟩

/-- C4 (counterexample to the claim as stated): with a flow whose states are
missing from the centroid table, `rankedFlows` skips the flow but
`total_migration` still counts it, so the claimed equality fails. -/
theorem stats_total_counterexample :
    ¬ ((((get_stats [⟨"A", "B", 5⟩]).total_migration : ℤ) : ℚ) =
        ((rankedFlowsUnlimited [⟨"A", "B", 5⟩] [] 0).map FlowOut.flow_value).sum) := by
  have hs : (([⟨"A", "B", 5⟩] : List FlowRow).map FlowRow.PrdMIG).sum = 5 := by simp
  have hL : (get_stats [⟨"A", "B", 5⟩]).total_migration = 5 := by
    simp [get_stats, hs]
    decide
  have hR : ((rankedFlowsUnlimited [⟨"A", "B", 5⟩] [] 0).map FlowOut.flow_value).sum = 0 := rfl
  rw [hL, hR]
  norm_num

/-! ### Symmetrized net migration (`app.py` lines 210-257) -/

/-- One element of the `/api/net_migration` response. -/
structure NetRec where
  from_state : String
  to_state : String
  net_flow : ℚ
  direction : Int
deriving DecidableEq, Repr

/-- `tuple(sorted([x, y]))` under Python string comparison. -/
def sortPair (x y : String) : String × String :=
  if strLe x y then (x, y) else (y, x)

/-- The set of unordered state pairs present in the aggregated table, as a
deduplicated list. -/
def statePairs (fl : List FlowRow) : List (String × String) :=
  (fl.map (fun f => sortPair f.origin_state f.dest_state)).dedup

/-- Directed volume: the sum of `PrdMIG` over the rows `a → b`. -/
def dirSum (fl : List FlowRow) (a b : String) : ℚ :=
  ((fl.filter (fun f => f.origin_state = a ∧ f.dest_state = b)).map FlowRow.PrdMIG).sum

/-- The record emitted for one unordered pair, if any: emitted when the
absolute net flow meets the threshold, oriented so the reported value is the
absolute net, with `direction = 1` exactly when the net is positive. -/
def netRecordFor (fl : List FlowRow) (min_flow : ℚ) (p : String × String) : Option NetRec :=
  if min_flow ≤ |dirSum fl p.1 p.2 - dirSum fl p.2 p.1| then
    some (if 0 < dirSum fl p.1 p.2 - dirSum fl p.2 p.1 then
        { from_state := p.1, to_state := p.2,
          net_flow := dirSum fl p.1 p.2 - dirSum fl p.2 p.1, direction := 1 }
      else
        { from_state := p.2, to_state := p.1,
          net_flow := |dirSum fl p.1 p.2 - dirSum fl p.2 p.1|, direction := -1 })
  else none

/-- `get_net_migration`: the `/api/net_migration` response, one candidate
record per unordered state pair. -/
def get_net_migration (fl : List FlowRow) (min_flow : ℚ) : List NetRec :=
  (statePairs fl).filterMap (netRecordFor fl min_flow)

theorem sortPair_le (x y : String) : strLe (sortPair x y).1 (sortPair x y).2 = true := by
  unfold sortPair
  split
  · rename_i h
    exact h
  · rename_i h
    rcases strLe_total x y with h1 | h1
    · exact absurd h1 h
    · exact h1

theorem statePairs_le (fl : List FlowRow) {p : String × String} (hp : p ∈ statePairs fl) :
    strLe p.1 p.2 = true := by
  rw [statePairs, List.mem_dedup] at hp
  obtain ⟨f, _, hf⟩ := List.mem_map.mp hp
  rw [← hf]
  exact sortPair_le _ _

theorem netRecordFor_sortPair (fl : List FlowRow) (m : ℚ) {p : String × String} {r : NetRec}
    (hle : strLe p.1 p.2 = true) (h : netRecordFor fl m p = some r) :
    sortPair r.from_state r.to_state = p := by
  obtain ⟨p1, p2⟩ := p
  unfold netRecordFor at h
  split at h
  · have hr := Option.some.inj h
    split at hr
    · rw [← hr]
      show sortPair p1 p2 = (p1, p2)
      rw [sortPair, if_pos hle]
    · rw [← hr]
      show sortPair p2 p1 = (p1, p2)
      rw [sortPair]
      split
      · rename_i h21
        have heq : p1 = p2 := strLe_antisymm hle h21
        subst heq
        rfl
      · rfl
  · cases h

theorem pairwise_ne_filterMap {α β : Type} (f : α → Option β) (g : β → α) (l : List α)
    (hrec : ∀ a ∈ l, ∀ b, f a = some b → g b = a)
    (hl : l.Pairwise (fun a c => a ≠ c)) :
    (l.filterMap f).Pairwise (fun b1 b2 => g b1 ≠ g b2) := by
  induction l with
  | nil => simp
  | cons a l ih =>
    rw [List.filterMap_cons]
    rcases List.pairwise_cons.mp hl with ⟨hhead, htail⟩
    have ihl := ih (fun x hx b hb => hrec x (List.mem_cons_of_mem a hx) b hb) htail
    cases hfa : f a with
    | none => exact ihl
    | some b =>
      refine List.pairwise_cons.mpr ⟨?_, ihl⟩
      intro b2 hb2
      obtain ⟨a2, ha2, hfa2⟩ := List.mem_filterMap.mp hb2
      rw [hrec a (List.mem_cons_self a l) b hfa,
        hrec a2 (List.mem_cons_of_mem a ha2) b2 hfa2]
      exact hhead a2 ha2

/-- C2 (amended): `get_net_migration` emits at most one record per unordered
state pair, every emitted `net_flow` is nonnegative, and it is strictly
positive whenever `min_flow` is; with the default `min_flow = 0` a pair with
exactly balanced directed volumes yields a record with `net_flow = 0`. -/
theorem net_migration_unique_nonneg (fl : List FlowRow) (m : ℚ) :
    (get_net_migration fl m).Pairwise
      (fun r1 r2 => sortPair r1.from_state r1.to_state ≠ sortPair r2.from_state r2.to_state) ∧
    ∀ r ∈ get_net_migration fl m, 0 ≤ r.net_flow ∧ (0 < m → 0 < r.net_flow) := by
  constructor
  · exact pairwise_ne_filterMap _ (fun r => sortPair r.from_state r.to_state) _
      (fun p hp r hr => netRecordFor_sortPair fl m (statePairs_le fl hp) hr)
      (List.nodup_dedup _)
  · intro r hr
    obtain ⟨p, _, hfp⟩ := List.mem_filterMap.mp hr
    rw [netRecordFor] at hfp
    split at hfp
    · rename_i habs
      have hr2 := Option.some.inj hfp
      split at hr2
      · rename_i hpos
        rw [← hr2]
        exact ⟨le_of_lt hpos, fun _ => hpos⟩
      · rw [← hr2]
        refine ⟨abs_nonneg _, fun hm => lt_of_lt_of_le hm habs⟩
    · cases hfp

/-- Witness for C2 (amended) at `min_flow = 1` on a two-row table. -/
theorem net_migration_unique_nonneg_witness :
    0 ≤ ({ from_state := "A", to_state := "B", net_flow := 6, direction := 1 } : NetRec).net_flow ∧
    (0 < (1 : ℚ) →
      0 < ({ from_state := "A", to_state := "B", net_flow := 6, direction := 1 } : NetRec).net_flow) :=
  (net_migration_unique_nonneg [⟨"A", "B", 10⟩, ⟨"B", "A", 4⟩] 1).2
    { from_state := "A", to_state := "B", net_flow := 6, direction := 1 }
    (by
      have hab : strLe "A" "B" = true := by rfl
      have hba : strLe "B" "A" = false := by rfl
      have e1 : (decide (("B" : String) = "A")) = false := by rfl
      have e2 : (decide (("A" : String) = "B")) = false := by rfl
      have e3 : (decide (("A" : String) = "A")) = true := by rfl
      have e4 : (decide (("B" : String) = "B")) = true := by rfl
      have hd1 : dirSum [⟨"A", "B", 10⟩, ⟨"B", "A", 4⟩] "A" "B" = 10 := by
        norm_num [dirSum, List.filter, e1, e2, e3, e4]
      have hd2 : dirSum [⟨"A", "B", 10⟩, ⟨"B", "A", 4⟩] "B" "A" = 4 := by
        norm_num [dirSum, List.filter, e1, e2, e3, e4]
      norm_num [get_net_migration, statePairs, sortPair, hab, hba, netRecordFor, hd1, hd2])

/-- C2 (counterexample to the claim as stated): with `min_flow = 0` and a pair
whose two directed volumes coincide, the emitted record has `net_flow = 0`,
which is not strictly positive. -/
theorem net_migration_zero_counterexample :
    get_net_migration [⟨"A", "B", 5⟩, ⟨"B", "A", 5⟩] 0 =
      [{ from_state := "B", to_state := "A", net_flow := 0, direction := -1 }] ∧
    ¬ (0 < ({ from_state := "B", to_state := "A", net_flow := 0, direction := -1 } : NetRec).net_flow) := by
  constructor
  · have hab : strLe "A" "B" = true := by rfl
    have hba : strLe "B" "A" = false := by rfl
    have e1 : (decide (("B" : String) = "A")) = false := by rfl
    have e2 : (decide (("A" : String) = "B")) = false := by rfl
    have e3 : (decide (("A" : String) = "A")) = true := by rfl
    have e4 : (decide (("B" : String) = "B")) = true := by rfl
    have hd1 : dirSum [⟨"A", "B", 5⟩, ⟨"B", "A", 5⟩] "A" "B" = 5 := by
      norm_num [dirSum, List.filter, e1, e2, e3, e4]
    have hd2 : dirSum [⟨"A", "B", 5⟩, ⟨"B", "A", 5⟩] "B" "A" = 5 := by
      norm_num [dirSum, List.filter, e1, e2, e3, e4]
    have hrec : netRecordFor [⟨"A", "B", 5⟩, ⟨"B", "A", 5⟩] 0 ("A", "B") =
        some { from_state := "B", to_state := "A", net_flow := 0, direction := -1 } := by
      norm_num [netRecordFor, hd1, hd2]
    simp [get_net_migration, statePairs, sortPair, hab, hba, hrec]
  · norm_num

/-- C7: for an unordered pair `(a, b)` present in the table, a record for the
pair is emitted iff the absolute net directed volume meets `min_flow`, and an
emitted record carries `(a, b, net, +1)` when the net is positive and
`(b, a, |net|, -1)` when it is negative. -/
theorem net_migration_orientation (fl : List FlowRow) (m : ℚ) (a b : String)
    (hp : (a, b) ∈ statePairs fl) :
    ((∃ r ∈ get_net_migration fl m, sortPair r.from_state r.to_state = (a, b)) ↔
      m ≤ |dirSum fl a b - dirSum fl b a|) ∧
    (∀ r ∈ get_net_migration fl m, sortPair r.from_state r.to_state = (a, b) →
      (0 < dirSum fl a b - dirSum fl b a →
        r = { from_state := a, to_state := b,
              net_flow := dirSum fl a b - dirSum fl b a, direction := 1 }) ∧
      (dirSum fl a b - dirSum fl b a < 0 →
        r = { from_state := b, to_state := a,
              net_flow := |dirSum fl a b - dirSum fl b a|, direction := -1 })) := by
  have hle : strLe a b = true := statePairs_le fl hp
  constructor
  · constructor
    · rintro ⟨r, hr, hsp⟩
      obtain ⟨p, hp2, hfp⟩ := List.mem_filterMap.mp hr
      have hpe : p = (a, b) := by
        rw [← netRecordFor_sortPair fl m (statePairs_le fl hp2) hfp, hsp]
      subst hpe
      rw [netRecordFor] at hfp
      split at hfp
      · rename_i habs
        exact habs
      · cases hfp
    · intro hm
      have hsome : netRecordFor fl m (a, b) =
          some (if 0 < dirSum fl a b - dirSum fl b a then
              { from_state := a, to_state := b,
                net_flow := dirSum fl a b - dirSum fl b a, direction := 1 }
            else
              { from_state := b, to_state := a,
                net_flow := |dirSum fl a b - dirSum fl b a|, direction := -1 }) := by
        rw [netRecordFor]
        exact if_pos hm
      refine ⟨_, List.mem_filterMap.mpr ⟨(a, b), hp, hsome⟩, ?_⟩
      exact netRecordFor_sortPair fl m hle hsome
  · intro r hr hsp
    obtain ⟨p, hp2, hfp⟩ := List.mem_filterMap.mp hr
    have hpe : p = (a, b) := by
      rw [← netRecordFor_sortPair fl m (statePairs_le fl hp2) hfp, hsp]
    subst hpe
    rw [netRecordFor] at hfp
    split at hfp
    · have hr2 := Option.some.inj hfp
      constructor
      · intro hpos
        rw [← hr2, if_pos hpos]
      · intro hneg
        rw [← hr2, if_neg (not_lt.mpr (le_of_lt hneg))]
    · cases hfp

/-- Witness for C7: the pair `("A", "B")` of a concrete table, at
`min_flow = 0`. -/
theorem net_migration_orientation_witness :
    ∃ r ∈ get_net_migration [⟨"A", "B", 10⟩, ⟨"B", "A", 4⟩] 0,
      sortPair r.from_state r.to_state = ("A", "B") :=
  ((net_migration_orientation [⟨"A", "B", 10⟩, ⟨"B", "A", 4⟩] 0 "A" "B" (by decide)).1).mpr
    (abs_nonneg _)
